import Mathlib

/-!
Shallow embedding of the FreskoWinner counter / security / winner-selection
code (src/unnamed/part_000 = counter-system.js ++ security.js, and
src/admin-functions.js).

Conventions of the embedding:
* Browser storage is modelled by association lists keyed by strings.  The
  source stores counter values as decimal strings and reads them back with
  parseInt(x) || 0; since the only values ever written are toString of the
  integers manipulated here, the round trip is the identity and the maps
  carry the integers directly (an absent key reads as 0, exactly as
  parseInt(null) || 0 does).
* Remote (supabase) calls are fallible.  Each call site takes an oracle
  value describing the outcome of that call: `ok` (the call reached the
  store), `err` (the call returned an error object, e.g. a missing row for
  .single(), and did not throw) or `thrown` (the awaited promise rejected,
  transferring control to the enclosing catch).  A thrown *write* carries a
  Bool saying whether the write had already been applied server-side when
  the failure surfaced.
* An insert into a table applies only when the row id is absent (a
  duplicate primary key makes the remote store reject the insert with an
  error, which the source ignores); update-by-id applies only when the row
  exists.
* Timestamps are naturals (milliseconds).  JavaScript subtraction of
  timestamps can be negative where Nat subtraction truncates to 0; at every
  place this is used (session renewal, rate-limit resetIn) the two agree on
  the branch taken, as noted at the definition.
-/

namespace Fresko

/-! ### Association-list stores (localStorage / sessionStorage / tables) -/

/-- Read a key from a string-keyed store; `none` means the key is absent. -/
def alGet {β : Type} : List (String × β) → String → Option β
  | [], _ => none
  | (k, v) :: t, k2 => if k = k2 then some v else alGet t k2

/-- Write a key, replacing in place (localStorage.setItem keeps insertion
order for an existing key and appends a new key). -/
def alSet {β : Type} : List (String × β) → String → β → List (String × β)
  | [], k2, v2 => [(k2, v2)]
  | (k, v) :: t, k2, v2 => if k = k2 then (k2, v2) :: t else (k, v) :: alSet t k2 v2

theorem alGet_alSet_self {β : Type} (m : List (String × β)) (k : String) (v : β) :
    alGet (alSet m k v) k = some v := by
  induction m with
  | nil => simp [alGet, alSet]
  | cons p t ih =>
    obtain ⟨k1, v1⟩ := p
    by_cases h : k1 = k <;> simp [alGet, alSet, h, ih]

theorem alGet_alSet_ne {β : Type} (m : List (String × β)) {k k2 : String} (v : β)
    (h : k2 ≠ k) : alGet (alSet m k v) k2 = alGet m k2 := by
  induction m with
  | nil => simp [alGet, alSet, Ne.symm h]
  | cons p t ih =>
    obtain ⟨k1, v1⟩ := p
    by_cases h1 : k1 = k
    · subst h1
      simp [alGet, alSet, Ne.symm h]
    · by_cases h2 : k1 = k2 <;> simp [alGet, alSet, h1, h2, ih, h]

/-! ### Counter Reconciliation Engine (counter-system.js) -/

/-- The options bag passed to incrementCounter; only `pageName` is ever read
by the counting logic (`options.pageName || counterId` at the remote
insert). -/
structure IncOptions where
  pageName : Option String
deriving DecidableEq

/-- A row of the remote `page_counters` table.  `last_updated` is written
but never read by this code, so it is not carried. -/
structure RemoteRow where
  count : Nat
  pageName : String
deriving DecidableEq

/-- Outcome of one remote read (`select ... .single()` or the probe). -/
inductive ReadRes where
  | ok | err | thrown
deriving DecidableEq

/-- Outcome of one remote write (insert / update). `thrown applied` means
the awaited call rejected, with `applied` telling whether the write had
taken effect remotely before the failure. -/
inductive WriteRes where
  | ok | err | thrown (applied : Bool)
deriving DecidableEq

/-- The remote-call outcomes one incrementCounter invocation can consume:
its row read, its insert, its update, and the read performed by the
`getCounterValue` call on the already-counted path. -/
structure IncOrc where
  read : ReadRes
  ins : WriteRes
  upd : WriteRes
  getRead : ReadRes

/-- State of a CounterSystem instance together with the browser stores it
touches.  `localCounters` holds the `fresko_counter_<id>` keys (value =
stored integer), `localDetails` the `..._details` keys, `localHistory` the
`..._history` keys, `sessionFlags` the set of ids whose
`counter_visited_<id>` sessionStorage flag is present, and `remote` the
`page_counters` table. -/
structure CtrState where
  fallbackEnabled : Bool
  initialized : Bool
  pendingIncrements : List (String × IncOptions)
  localCounters : List (String × Nat)
  localDetails : List (String × IncOptions)
  localHistory : List (String × List IncOptions)
  sessionFlags : List String
  remote : List (String × RemoteRow)
deriving DecidableEq

/-- The constructor state: fallback on, not initialized, no pending
increments; fresh browser stores. -/
def freshState : CtrState where
  fallbackEnabled := true
  initialized := false
  pendingIncrements := []
  localCounters := []
  localDetails := []
  localHistory := []
  sessionFlags := []
  remote := []

/-- The locally mirrored value of a counter:
`parseInt(localStorage.getItem(key)) || 0`. -/
def localVal (st : CtrState) (id : String) : Nat :=
  (alGet st.localCounters id).getD 0

/-- Embeds `CounterSystem.incrementLocal` (lines 110-126): bump the local mirror
and rewrite the details key; returns the new local count. -/
def incrementLocal (st : CtrState) (id : String) (opt : IncOptions) : CtrState × Nat :=
  let c := localVal st id + 1
  ({ st with
      localCounters := alSet st.localCounters id c
      localDetails := alSet st.localDetails id opt }, c)

/-- Embeds `CounterSystem.getCounterValue` (lines 128-148): in remote-backed
initialized mode read the remote row and return the max with the local
mirror; any error, missing row or exception degrades to the local mirror. -/
def getCounterValue (st : CtrState) (r : ReadRes) (id : String) : Nat :=
  if !st.fallbackEnabled && st.initialized then
    match r with
    | .ok =>
      match alGet st.remote id with
      | some row => max row.count (localVal st id)
      | none => localVal st id
    | _ => localVal st id
  else localVal st id

/-- Insert a `page_counters` row; a duplicate id is rejected by the store
(the source ignores the returned error), so this applies only when the id
is absent.  `page_name` is `options.pageName || counterId`. -/
def remoteInsert (st : CtrState) (id : String) (opt : IncOptions) (c : Nat) : CtrState :=
  match alGet st.remote id with
  | some _ => st
  | none =>
      { st with remote := alSet st.remote id { count := c, pageName := opt.pageName.getD id } }

/-- Update-by-id of the count of a `page_counters` row; matches zero rows (and
changes nothing) when the id is absent. -/
def remoteUpdate (st : CtrState) (id : String) (c : Nat) : CtrState :=
  match alGet st.remote id with
  | some row => { st with remote := alSet st.remote id { row with count := c } }
  | none => st

/-- Embeds the sessionStorage setItem on the sessionPrefix key (line 97): make the per-tab
flag present. -/
def setFlag (st : CtrState) (id : String) : CtrState :=
  if st.sessionFlags.contains id then st
  else { st with sessionFlags := id :: st.sessionFlags }

/-- Embeds `CounterSystem.saveToHistory` (lines 150-173): append an entry to the
history key, keeping only the last 100 entries. -/
def saveHistory (st : CtrState) (id : String) (opt : IncOptions) : CtrState :=
  let h := (alGet st.localHistory id).getD [] ++ [opt]
  let h2 := if 100 < h.length then h.drop (h.length - 100) else h
  { st with localHistory := alSet st.localHistory id h2 }

/-- Tail of the non-degraded incrementCounter path (lines 92-102): local
increment, reconcile `newCount = max(newCount, localCount)`, set the
session flag, append history, return the reconciled count. -/
def finishIncrement (st : CtrState) (id : String) (opt : IncOptions) (newCount : Nat) :
    CtrState × Nat :=
  let p := incrementLocal st id opt
  (saveHistory (setFlag p.1 id) id opt, max newCount p.2)

/-- The `error || !data` branch of the remote read (lines 70-79): try to
insert the counter at 1, then continue with `newCount = 1`; a thrown insert
lands in the catch, which returns a bare local increment (no flag, no
history). -/
def insertBranch (st : CtrState) (id : String) (opt : IncOptions) (w : WriteRes) :
    CtrState × Nat :=
  match w with
  | .thrown applied => incrementLocal (if applied then remoteInsert st id opt 1 else st) id opt
  | .err => finishIncrement st id opt 1
  | .ok => finishIncrement (remoteInsert st id opt 1) id opt 1

/-- Embeds `CounterSystem.incrementCounter` (lines 46-108).  Before initialization
it enqueues the request and performs (and returns) a bare local increment.
Once initialized: an already-set per-tab flag short-circuits to
getCounterValue; otherwise in fallback mode the remote block is skipped
(`newCount` stays 1), else the remote row is read and inserted-at-1 or
updated to `count+1`; every non-thrown path then runs `finishIncrement`.
Any thrown remote call is caught and answered with a bare local
increment. -/
def incrementCounter (st : CtrState) (id : String) (opt : IncOptions) (orc : IncOrc) :
    CtrState × Nat :=
  if st.initialized = false then
    let st1 := { st with pendingIncrements := st.pendingIncrements ++ [(id, opt)] }
    incrementLocal st1 id opt
  else if st.sessionFlags.contains id then
    (st, getCounterValue st orc.getRead id)
  else if st.fallbackEnabled then
    finishIncrement st id opt 1
  else
    match orc.read with
    | .thrown => incrementLocal st id opt
    | .err => insertBranch st id opt orc.ins
    | .ok =>
      match alGet st.remote id with
      | none => insertBranch st id opt orc.ins
      | some row =>
        match orc.upd with
        | .thrown applied =>
            incrementLocal (if applied then remoteUpdate st id (row.count + 1) else st) id opt
        | .err => finishIncrement st id opt (row.count + 1)
        | .ok => finishIncrement (remoteUpdate st id (row.count + 1)) id opt (row.count + 1)

/-- The drain loop of `CounterSystem.initialize` (lines 32-37): awaits one
queued incrementCounter to completion before starting the next, in
submission order; `orcs i` is the remote outcome of the i-th drained
call. -/
def drainPending (orcs : Nat → IncOrc) : Nat → List (String × IncOptions) → CtrState → CtrState
  | _, [], st => st
  | i, (id, opt) :: rest, st =>
      drainPending orcs (i + 1) rest (incrementCounter st id opt (orcs i)).1

/-- Embeds `CounterSystem.initialize` (lines 13-44): probe the remote store; a
probe that returns normally picks the mode (error ⇒ fallback) and, after
setting `initialized`, drains the pending queue and empties it; a probe
that throws lands in the catch, which only sets fallback mode and
`initialized` (the queue is not drained). -/
def initSystem (st : CtrState) (probe : ReadRes) (orcs : Nat → IncOrc) : CtrState :=
  match probe with
  | .thrown => { st with fallbackEnabled := true, initialized := true }
  | p =>
    let fb := match p with
      | .err => true
      | _ => false
    let st1 := { st with fallbackEnabled := fb, initialized := true }
    let st2 := drainPending orcs 0 st1.pendingIncrements st1
    { st2 with pendingIncrements := [] }

/-- Bool-valued substring test on character lists (String.includes). -/
def containsSub : List Char → List Char → Bool
  | l, pat =>
    pat.isPrefixOf l ||
      match l with
      | [] => false
      | _ :: t => containsSub t pat

/-- The key filter of the sync sweep (line 330): skip any localStorage key
containing `_history`, `_details` or `click_`; the key is
`fresko_counter_` ++ id. -/
def skipKey (id : String) : Bool :=
  let key := (String.append "fresko_counter_" id).data
  containsSub key "_history".data || containsSub key "_details".data ||
    containsSub key "click_".data

/-- The counter ids swept by syncWithDatabase: the locally mirrored counter
keys, in store order, minus the filtered ones. -/
def syncKeys (st : CtrState) : List String :=
  (st.localCounters.map (fun p => p.1)).filter (fun id => !skipKey id)

/-- Per-id remote outcomes for one syncWithDatabase run. -/
structure SyncOrc where
  read : String → ReadRes
  write : String → WriteRes

/-- A remote write issued by the sync sweep (insert or update of a counter
to a given count). -/
inductive WEvent where
  | ins (id : String) (c : Nat)
  | upd (id : String) (c : Nat)
deriving DecidableEq

/-- The body of the sync loop for one key (lines 330-358): read the remote
row; a missing row (or an errored read) triggers an insert of the local
value (page_name = counterId), a remote count below the local value
triggers an update to the local value, otherwise nothing is written.
Returns the new state, the write events issued for this id, and whether
the loop continues (a thrown call aborts the sweep, caught at function
level). -/
def syncOne (orc : SyncOrc) (id : String) (st : CtrState) : CtrState × List WEvent × Bool :=
  let localCount := localVal st id
  match orc.read id with
  | .thrown => (st, [], false)
  | r =>
    let dataOpt : Option Nat :=
      match r with
      | .err => none
      | _ => (alGet st.remote id).map (fun row => row.count)
    match dataOpt with
    | none =>
      match orc.write id with
      | .thrown applied =>
          ((if applied then remoteInsert st id ⟨none⟩ localCount else st),
            [WEvent.ins id localCount], false)
      | .err => (st, [WEvent.ins id localCount], true)
      | .ok => (remoteInsert st id ⟨none⟩ localCount, [WEvent.ins id localCount], true)
    | some v =>
      if v < localCount then
        match orc.write id with
        | .thrown applied =>
            ((if applied then remoteUpdate st id localCount else st),
              [WEvent.upd id localCount], false)
        | .err => (st, [WEvent.upd id localCount], true)
        | .ok => (remoteUpdate st id localCount, [WEvent.upd id localCount], true)
      else (st, [], true)

/-- The per-key loop of `syncWithDatabase` (lines 329-359): run syncOne on
each key in order, accumulating the write log, stopping early when a
remote call throws. -/
def syncGo (orc : SyncOrc) : List String → CtrState → List WEvent → CtrState × List WEvent × Bool
  | [], st, log => (st, log, true)
  | id :: rest, st, log =>
    let r := syncOne orc id st
    if r.2.2 then syncGo orc rest r.1 (log ++ r.2.1)
    else (r.1, log ++ r.2.1, false)

/-- Embeds `CounterSystem.syncWithDatabase` (lines 321-368): a no-op returning
false in fallback mode, else the sweep over the filtered local counter
keys. -/
def syncWithDatabase (st : CtrState) (orc : SyncOrc) : CtrState × List WEvent × Bool :=
  if st.fallbackEnabled then (st, [], false)
  else syncGo orc (syncKeys st) st []

/-- One observable operation of the counter subsystem, carrying the remote
outcomes it consumes.  `opGet` does not mutate state. -/
inductive Op where
  | opInit (probe : ReadRes) (orcs : Nat → IncOrc)
  | opInc (id : String) (opt : IncOptions) (orc : IncOrc)
  | opSync (orc : SyncOrc)
  | opGet (id : String) (r : ReadRes)

/-- Effect of one operation on the state. -/
def execOp (st : CtrState) : Op → CtrState
  | .opInit probe orcs => initSystem st probe orcs
  | .opInc id opt orc => (incrementCounter st id opt orc).1
  | .opSync orc => (syncWithDatabase st orc).1
  | .opGet _ _ => st

/-- Run a sequence of operations from the constructor state. -/
def runOps (ops : List Op) : CtrState := ops.foldl execOp freshState

/-! ### Session & Admission Controller (security.js)

The session record and the stores it lives in.  `α` is the type of the
user data attached to the session.  Times are milliseconds.  The stray
`await` at line 895 of the source (`ip: await this.getClientIP()` inside
the non-async `createSession`) is read as the evidently intended
asynchronous IP lookup; the fetched value is passed in as `ip` here. -/

/-- The `user_session` record stored (as JSON) in the durable store. -/
structure Session (α : Type) where
  id : String
  user : α
  created : Nat
  expires : Nat
  ip : String
  userAgent : String
  lastActivity : Option Nat
deriving DecidableEq

/-- A `rate_limit_<action>` bucket stored (as JSON) in the volatile
store. -/
structure Bucket where
  count : Nat
  resetTime : Nat
deriving DecidableEq

/-- The slice of browser storage touched by SecuritySystem: durable keys
`user_session`, `csrf_token`, `csrf_token_expires`; volatile keys
`session_id`, `csrf_token`, `rate_limit_*` and the captcha triple. -/
structure SecState (α : Type) where
  session : Option (Session α)
  csrfToken : Option String
  csrfExpires : Option Nat
  volSessionId : Option String
  volCsrf : Option String
  rateLimits : List (String × Bucket)
  captchaHash : Option String
  captchaText : Option String
  captchaTime : Option Nat
deriving DecidableEq

/-- Embeds `sessionDuration` (line 410): 24 hours in milliseconds. -/
def sessionDuration : Nat := 24 * 60 * 60 * 1000

/-- The renewal threshold `this.sessionDuration * 0.8` (line 954).  With
`sessionDuration = 86400000` the double-precision product is exactly
`69120000` (the real product 86400000·fl(0.8) = 69120000.0000000038…
rounds back to the integer), so the Nat value is exact. -/
def renewThreshold : Nat := sessionDuration * 4 / 5

/-- Embeds `SecuritySystem.destroySession` (lines 965-984): full teardown of the
session record, both CSRF copies, the volatile session id, and every
volatile `rate_limit_*` / `captcha_*` key. -/
def destroySession {α : Type} (st : SecState α) : SecState α :=
  { st with
      session := none
      csrfToken := none
      csrfExpires := none
      volSessionId := none
      volCsrf := none
      rateLimits := []
      captchaHash := none
      captchaText := none
      captchaTime := none }

/-- Embeds `SecuritySystem.updateSessionActivity` (lines 945-963): stamp
`lastActivity = now` and, when less than 80% of the duration has elapsed
since `created`, slide `expires` to `now + duration`.  (JS computes
`now - created` as a possibly negative number; a negative elapsed time is
below the threshold exactly as the truncated Nat subtraction is.) -/
def updateSessionActivity {α : Type} (st : SecState α) (now : Nat) : SecState α :=
  match st.session with
  | none => st
  | some s =>
      let s1 := { s with lastActivity := some now }
      let s2 := if now - s1.created < renewThreshold
        then { s1 with expires := now + sessionDuration } else s1
      { st with session := some s2 }

/-- Embeds `SecuritySystem.validateSession` (lines 914-943): `none` (JS `false`)
if no durable record, if `now > expires` (destroying the session), or if
the volatile `session_id` differs from the id of the record (destroying the
session); otherwise refresh activity and return the stored user. -/
def validateSession {α : Type} (st : SecState α) (now : Nat) : SecState α × Option α :=
  match st.session with
  | none => (st, none)
  | some s =>
    if s.expires < now then (destroySession st, none)
    else if st.volSessionId ≠ some s.id then (destroySession st, none)
    else (updateSessionActivity st now, some s.user)

/-- Embeds `SecuritySystem.createSession` (lines 887-912): build the record with
`created = now`, `expires = now + duration`, store it durably, mirror the
id into the volatile store, then run updateSessionActivity; returns the
session id.  `sid` is the generated high-entropy id, `ip` / `ua` the
environment values. -/
def createSession {α : Type} (st : SecState α) (u : α) (now : Nat) (sid ip ua : String) :
    SecState α × Option String :=
  let s : Session α :=
    { id := sid, user := u, created := now, expires := now + sessionDuration
      ip := ip, userAgent := ua, lastActivity := none }
  let st1 := { st with session := some s, volSessionId := some sid }
  (updateSessionActivity st1 now, some sid)

/-- Embeds `SecuritySystem.generateCSRFToken` (lines 845-863): store the fresh
token `tok` durably with a 1-hour expiry and redundantly in the volatile
store; returns the token. -/
def generateCSRFToken {α : Type} (st : SecState α) (tok : String) (now : Nat) :
    SecState α × Option String :=
  ({ st with
      csrfToken := some tok
      csrfExpires := some (now + 3600000)
      volCsrf := some tok }, some tok)

/-- Result of one checkRateLimit call: the allowed shape carries
`remaining` and `resetIn`, the denied shape carries `resetIn` and
`retryAfter` (its `remaining` is the constant 0). -/
inductive RateRes where
  | allowed (remaining resetIn : Nat)
  | denied (resetIn retryAfter : Nat)
deriving DecidableEq

/-- Embeds `SecuritySystem.checkRateLimit` (lines 801-841).  The stored JSON is
re-initialised when absent or when `count` or `resetTime` is falsy (the
`!data.count || !data.resetTime` test, so a stored 0 counts as absent),
reset when `now > resetTime`, then either denied with
`retryAfter = ceil((resetTime-now)/1000)` or incremented, persisted and
allowed with `remaining = limit - count`.  All subtractions are
non-negative on every reachable branch, so Nat subtraction is exact, and
the float ceiling agrees with `(x + 999) / 1000`. -/
def checkRateLimit {α : Type} (st : SecState α) (action : String)
    (limit interval now : Nat) : SecState α × RateRes :=
  let data0 : Bucket :=
    match alGet st.rateLimits action with
    | none => { count := 0, resetTime := now + interval }
    | some b =>
        if b.count = 0 || b.resetTime = 0 then { count := 0, resetTime := now + interval }
        else b
  let data : Bucket :=
    if data0.resetTime < now then { count := 0, resetTime := now + interval } else data0
  if limit ≤ data.count then
    (st, .denied (data.resetTime - now) ((data.resetTime - now + 999) / 1000))
  else
    let d2 : Bucket := { count := data.count + 1, resetTime := data.resetTime }
    ({ st with rateLimits := alSet st.rateLimits action d2 },
      .allowed (limit - d2.count) (d2.resetTime - now))

/-! ### Giveaway winner selection (admin-functions.js) -/

/-- The draw loop of `AdminFunctions.selectWinners` (lines 240-266).
`rand j` is the j-th output of the crypto source, a uniform 32-bit word;
the source divides it by 2^32 and multiplies by the current candidate
count, flooring — for candidate counts small enough that the products are
exact doubles this is the Nat expression `rand j * len / 2^32` used here,
always in range.  Each drawn candidate is recorded and removed
(`splice`). -/
def drawGo {α : Type} (rand : Nat → Nat) : Nat → Nat → List α → List α
  | _, 0, _ => []
  | j, n + 1, l =>
    let idx := rand j * l.length / 4294967296
    match l[idx]? with
    | none => []
    | some x => x :: drawGo rand (j + 1) n (l.eraseIdx idx)

/-- Embeds the clamp and draw of `selectWinners`: `winnersCount = min(k, participants)`
(line 242) followed by the draw loop; returns the drawn ids in draw
order. -/
def selectWinnersDraw {α : Type} (l : List α) (k : Nat) (rand : Nat → Nat) : List α :=
  drawGo rand 0 (min k l.length) l

/-! ## Theorems -/

/-- C9: a generateCSRFToken call returning token `t` leaves the durable and
volatile `csrf_token` copies both equal to `t` (hence identical) and sets
the durable `csrf_token_expires` to the call time plus exactly one hour
(3600000 ms). -/
theorem csrf_token_both_copies {α : Type} (st : SecState α) (tok : String) (now : Nat) :
    (generateCSRFToken st tok now).2 = some tok ∧
    (generateCSRFToken st tok now).1.csrfToken = some tok ∧
    (generateCSRFToken st tok now).1.volCsrf = some tok ∧
    (generateCSRFToken st tok now).1.csrfExpires = some (now + 3600000) ∧
    (generateCSRFToken st tok now).1.csrfToken = (generateCSRFToken st tok now).1.volCsrf := by
  simp [generateCSRFToken]

/-- C10: when a counter is absent from both the local mirror and the remote
store, getCounterValue returns 0 in every mode and for every remote read
outcome (success, error, or throw); the definition is total, so no error
reaches the caller. -/
theorem getCounterValue_missing_zero (st : CtrState) (r : ReadRes) (id : String)
    (hl : alGet st.localCounters id = none) (hr : alGet st.remote id = none) :
    getCounterValue st r id = 0 := by
  cases hb : (!st.fallbackEnabled && st.initialized) <;> cases r <;>
    simp [getCounterValue, hb, hl, hr, localVal]

theorem getCounterValue_missing_zero_witness :
    alGet freshState.localCounters "x" = none ∧
    alGet freshState.remote "x" = none ∧
    getCounterValue freshState ReadRes.thrown "x" = 0 :=
  ⟨rfl, rfl, getCounterValue_missing_zero freshState ReadRes.thrown "x" rfl rfl⟩

theorem validateSession_eq_of_valid {α : Type} (st : SecState α) (now : Nat) (s : Session α)
    (hs : st.session = some s) (he : now ≤ s.expires) (hid : st.volSessionId = some s.id) :
    validateSession st now = (updateSessionActivity st now, some s.user) := by
  simp only [validateSession, hs]
  rw [if_neg (Nat.not_lt.mpr he), if_neg (by simp [hid])]

/-- C6: whenever validateSession succeeds it stamps the session field
lastActivity with the current time, and it slides `expires` to
`now + sessionDuration` exactly when less than 80% of the duration has
elapsed since `created`; at 80% or more, `expires` is unchanged. -/
theorem validateSession_renewal {α : Type} (st : SecState α) (now : Nat) (s : Session α)
    (hs : st.session = some s) (he : now ≤ s.expires) (hid : st.volSessionId = some s.id) :
    ∃ s2, (validateSession st now).1.session = some s2 ∧
      (validateSession st now).2 = some s.user ∧
      s2.lastActivity = some now ∧
      (now - s.created < renewThreshold → s2.expires = now + sessionDuration) ∧
      (renewThreshold ≤ now - s.created → s2.expires = s.expires) := by
  rw [validateSession_eq_of_valid st now s hs he hid]
  by_cases hth : now - s.created < renewThreshold
  · refine ⟨{ s with lastActivity := some now, expires := now + sessionDuration },
      ?_, rfl, rfl, fun _ => rfl, fun hge => absurd hth (Nat.not_lt.mpr hge)⟩
    unfold updateSessionActivity
    rw [hs]
    simp [hth]
  · refine ⟨{ s with lastActivity := some now },
      ?_, rfl, rfl, fun hlt2 => absurd hlt2 hth, fun _ => rfl⟩
    unfold updateSessionActivity
    rw [hs]
    simp [hth]

theorem validateSession_renewal_witness :
    ∃ s2, (validateSession (α := Nat)
        { session := some { id := "sid", user := 7, created := 0, expires := 86400000
                            ip := "1.2.3.4", userAgent := "ua", lastActivity := none }
          csrfToken := none, csrfExpires := none, volSessionId := some "sid"
          volCsrf := none, rateLimits := [], captchaHash := none, captchaText := none
          captchaTime := none } 1000).1.session = some s2 ∧
      (validateSession (α := Nat)
        { session := some { id := "sid", user := 7, created := 0, expires := 86400000
                            ip := "1.2.3.4", userAgent := "ua", lastActivity := none }
          csrfToken := none, csrfExpires := none, volSessionId := some "sid"
          volCsrf := none, rateLimits := [], captchaHash := none, captchaText := none
          captchaTime := none } 1000).2 = some 7 ∧
      s2.lastActivity = some 1000 ∧
      (1000 - 0 < renewThreshold → s2.expires = 1000 + sessionDuration) ∧
      (renewThreshold ≤ 1000 - 0 → s2.expires = 86400000) :=
  validateSession_renewal _ 1000
    { id := "sid", user := 7, created := 0, expires := 86400000
      ip := "1.2.3.4", userAgent := "ua", lastActivity := none }
    rfl (by norm_num) rfl

theorem createSession_eq {α : Type} (st : SecState α) (u : α) (t : Nat) (sid ip ua : String) :
    (createSession st u t sid ip ua).1 =
      { st with
          session := some { id := sid, user := u, created := t
                            expires := t + sessionDuration, ip := ip, userAgent := ua
                            lastActivity := some t }
          volSessionId := some sid } := by
  unfold createSession updateSessionActivity
  norm_num [renewThreshold, sessionDuration]

/-- C7: after a successful createSession, validateSession (before the
expiry) returns the stored user data; and once the durable record field
`expires` is overwritten with a time in the past, validateSession returns
a failure and the durable `user_session` key is empty afterwards. -/
theorem session_roundtrip_and_expiry {α : Type} (st : SecState α) (u : α) (t : Nat)
    (sid ip ua : String) (t2 : Nat) (h1 : t2 ≤ t + sessionDuration) (e t3 : Nat)
    (h2 : e < t3) :
    (validateSession (createSession st u t sid ip ua).1 t2).2 = some u ∧
    (validateSession
      { (createSession st u t sid ip ua).1 with
          session := ((createSession st u t sid ip ua).1.session).map
            (fun s => { s with expires := e }) } t3).2 = none ∧
    (validateSession
      { (createSession st u t sid ip ua).1 with
          session := ((createSession st u t sid ip ua).1.session).map
            (fun s => { s with expires := e }) } t3).1.session = none := by
  rw [createSession_eq]
  refine ⟨?_, ?_, ?_⟩
  · rw [validateSession_eq_of_valid _ t2
      { id := sid, user := u, created := t, expires := t + sessionDuration
        ip := ip, userAgent := ua, lastActivity := some t } rfl h1 rfl]
  · simp only [validateSession, Option.map, destroySession]
    rw [if_pos h2]
  · simp only [validateSession, Option.map, destroySession]
    rw [if_pos h2]

theorem session_roundtrip_and_expiry_witness :
    (validateSession (createSession (α := Nat) (destroySession
        { session := none, csrfToken := none, csrfExpires := none, volSessionId := none
          volCsrf := none, rateLimits := [], captchaHash := none, captchaText := none
          captchaTime := none }) 7 100 "sid" "ip" "ua").1 200).2 = some 7 ∧
    (validateSession
      { (createSession (α := Nat) (destroySession
          { session := none, csrfToken := none, csrfExpires := none, volSessionId := none
            volCsrf := none, rateLimits := [], captchaHash := none, captchaText := none
            captchaTime := none }) 7 100 "sid" "ip" "ua").1 with
          session := ((createSession (α := Nat) (destroySession
            { session := none, csrfToken := none, csrfExpires := none, volSessionId := none
              volCsrf := none, rateLimits := [], captchaHash := none, captchaText := none
              captchaTime := none }) 7 100 "sid" "ip" "ua").1.session).map
            (fun s => { s with expires := 5 }) } 300).2 = none ∧
    (validateSession
      { (createSession (α := Nat) (destroySession
          { session := none, csrfToken := none, csrfExpires := none, volSessionId := none
            volCsrf := none, rateLimits := [], captchaHash := none, captchaText := none
            captchaTime := none }) 7 100 "sid" "ip" "ua").1 with
          session := ((createSession (α := Nat) (destroySession
            { session := none, csrfToken := none, csrfExpires := none, volSessionId := none
              volCsrf := none, rateLimits := [], captchaHash := none, captchaText := none
              captchaTime := none }) 7 100 "sid" "ip" "ua").1.session).map
            (fun s => { s with expires := 5 }) } 300).1.session = none :=
  session_roundtrip_and_expiry _ 7 100 "sid" "ip" "ua" 200 (by norm_num [sessionDuration])
    5 300 (by norm_num)

theorem checkRateLimit_fresh {α : Type} (st : SecState α) (a : String)
    (limit interval now : Nat) (hb : alGet st.rateLimits a = none) (hl : 0 < limit) :
    checkRateLimit st a limit interval now =
      ({ st with rateLimits := alSet st.rateLimits a ⟨1, now + interval⟩ },
        .allowed (limit - 1) interval) := by
  unfold checkRateLimit
  rw [hb]
  simp [Nat.not_lt.mpr (Nat.le_add_right now interval), Nat.not_le.mpr hl]

theorem checkRateLimit_allowed_step {α : Type} (st : SecState α) (a : String)
    (limit interval now c rt : Nat) (hb : alGet st.rateLimits a = some ⟨c, rt⟩)
    (hc : c ≠ 0) (hrt : rt ≠ 0) (hnow : now ≤ rt) (hlt : c < limit) :
    checkRateLimit st a limit interval now =
      ({ st with rateLimits := alSet st.rateLimits a ⟨c + 1, rt⟩ },
        .allowed (limit - (c + 1)) (rt - now)) := by
  unfold checkRateLimit
  rw [hb]
  simp [hc, hrt, Nat.not_lt.mpr hnow, Nat.not_le.mpr hlt]

theorem checkRateLimit_denied_step {α : Type} (st : SecState α) (a : String)
    (limit interval now c rt : Nat) (hb : alGet st.rateLimits a = some ⟨c, rt⟩)
    (hc : c ≠ 0) (hrt : rt ≠ 0) (hnow : now ≤ rt) (hge : limit ≤ c) :
    checkRateLimit st a limit interval now =
      (st, .denied (rt - now) ((rt - now + 999) / 1000)) := by
  unfold checkRateLimit
  rw [hb]
  simp [hc, hrt, Nat.not_lt.mpr hnow, hge]

/-- C5: from a state with no bucket for action `x`, four calls of
`checkRateLimit("x", 3, 1000)` at non-decreasing times inside the first
window of the first call (1000 ms) are allowed with remaining 2, 1, 0 and then denied
with a strictly positive retryAfter. -/
theorem rateLimit_burst {α : Type} (st : SecState α) (t0 t1 t2 t3 : Nat)
    (h0 : alGet st.rateLimits "x" = none)
    (h01 : t0 ≤ t1) (h12 : t1 ≤ t2) (h23 : t2 ≤ t3) (hw : t3 < t0 + 1000) :
    (checkRateLimit st "x" 3 1000 t0).2 = RateRes.allowed 2 1000 ∧
    (checkRateLimit (checkRateLimit st "x" 3 1000 t0).1 "x" 3 1000 t1).2 =
      RateRes.allowed 1 (t0 + 1000 - t1) ∧
    (checkRateLimit (checkRateLimit (checkRateLimit st "x" 3 1000 t0).1 "x" 3 1000 t1).1
        "x" 3 1000 t2).2 = RateRes.allowed 0 (t0 + 1000 - t2) ∧
    (checkRateLimit (checkRateLimit (checkRateLimit
        (checkRateLimit st "x" 3 1000 t0).1 "x" 3 1000 t1).1 "x" 3 1000 t2).1
        "x" 3 1000 t3).2 =
      RateRes.denied (t0 + 1000 - t3) ((t0 + 1000 - t3 + 999) / 1000) ∧
    0 < (t0 + 1000 - t3 + 999) / 1000 := by
  have e1 := checkRateLimit_fresh st "x" 3 1000 t0 h0 (by norm_num)
  have g1 : alGet (checkRateLimit st "x" 3 1000 t0).1.rateLimits "x" =
      some ⟨1, t0 + 1000⟩ := by
    rw [e1]
    exact alGet_alSet_self _ _ _
  have e2 := checkRateLimit_allowed_step (checkRateLimit st "x" 3 1000 t0).1 "x" 3 1000 t1
    1 (t0 + 1000) g1 (by omega) (by omega) (by omega) (by omega)
  have g2 : alGet (checkRateLimit (checkRateLimit st "x" 3 1000 t0).1
      "x" 3 1000 t1).1.rateLimits "x" = some ⟨2, t0 + 1000⟩ := by
    rw [e2]
    exact alGet_alSet_self _ _ _
  have e3 := checkRateLimit_allowed_step _ "x" 3 1000 t2 2 (t0 + 1000) g2
    (by omega) (by omega) (by omega) (by omega)
  have g3 : alGet (checkRateLimit (checkRateLimit (checkRateLimit st "x" 3 1000 t0).1
      "x" 3 1000 t1).1 "x" 3 1000 t2).1.rateLimits "x" = some ⟨3, t0 + 1000⟩ := by
    rw [e3]
    exact alGet_alSet_self _ _ _
  have e4 := checkRateLimit_denied_step _ "x" 3 1000 t3 3 (t0 + 1000) g3
    (by omega) (by omega) (by omega) (by omega)
  exact ⟨by rw [e1], by rw [e2], by rw [e3], by rw [e4], by omega⟩

theorem rateLimit_burst_witness :
    (checkRateLimit (α := Nat) (destroySession
        { session := none, csrfToken := none, csrfExpires := none, volSessionId := none
          volCsrf := none, rateLimits := [], captchaHash := none, captchaText := none
          captchaTime := none }) "x" 3 1000 10).2 = RateRes.allowed 2 1000 ∧
    (checkRateLimit (checkRateLimit (α := Nat) (destroySession
        { session := none, csrfToken := none, csrfExpires := none, volSessionId := none
          volCsrf := none, rateLimits := [], captchaHash := none, captchaText := none
          captchaTime := none }) "x" 3 1000 10).1 "x" 3 1000 11).2 =
      RateRes.allowed 1 (10 + 1000 - 11) ∧
    (checkRateLimit (checkRateLimit (checkRateLimit (α := Nat) (destroySession
        { session := none, csrfToken := none, csrfExpires := none, volSessionId := none
          volCsrf := none, rateLimits := [], captchaHash := none, captchaText := none
          captchaTime := none }) "x" 3 1000 10).1 "x" 3 1000 11).1
        "x" 3 1000 12).2 = RateRes.allowed 0 (10 + 1000 - 12) ∧
    (checkRateLimit (checkRateLimit (checkRateLimit
        (checkRateLimit (α := Nat) (destroySession
        { session := none, csrfToken := none, csrfExpires := none, volSessionId := none
          volCsrf := none, rateLimits := [], captchaHash := none, captchaText := none
          captchaTime := none }) "x" 3 1000 10).1 "x" 3 1000 11).1 "x" 3 1000 12).1
        "x" 3 1000 13).2 =
      RateRes.denied (10 + 1000 - 13) ((10 + 1000 - 13 + 999) / 1000) ∧
    0 < (10 + 1000 - 13 + 999) / 1000 :=
  rateLimit_burst _ 10 11 12 13 rfl (by norm_num) (by norm_num) (by norm_num) (by norm_num)

theorem idx_lt {r len : Nat} (hr : r < 4294967296) (hl : 0 < len) :
    r * len / 4294967296 < len := by
  rw [Nat.div_lt_iff_lt_mul (by norm_num : (0:ℕ) < 4294967296)]
  calc r * len < 4294967296 * len := by
        exact Nat.mul_lt_mul_of_lt_of_le hr (Nat.le_refl len) hl
    _ = len * 4294967296 := Nat.mul_comm _ _

theorem perm_cons_eraseIdx {α : Type} :
    ∀ (l : List α) (i : Nat) (h : i < l.length), l.Perm (l.get ⟨i, h⟩ :: l.eraseIdx i) := by
  intro l
  induction l with
  | nil => intro i h; simp at h
  | cons a t ih =>
    intro i h
    cases i with
    | zero => exact List.Perm.refl _
    | succ j =>
      have hj : j < t.length := by simpa using h
      exact ((ih j hj).cons a).trans (List.Perm.swap _ _ _)

theorem drawGo_perm {α : Type} (rand : Nat → Nat) (hr : ∀ j, rand j < 4294967296) :
    ∀ (n : Nat) (l : List α) (j : Nat), n = l.length → (drawGo rand j n l).Perm l := by
  intro n
  induction n with
  | zero =>
    intro l j h
    cases l with
    | nil => simp [drawGo]
    | cons a t => simp at h
  | succ m ih =>
    intro l j h
    have hl : 0 < l.length := by omega
    have hidx : rand j * l.length / 4294967296 < l.length := idx_lt (hr j) hl
    have hlen : (l.eraseIdx (rand j * l.length / 4294967296)).length = m := by
      have := List.length_eraseIdx_add_one hidx
      omega
    simp only [drawGo]
    rw [List.getElem?_eq_getElem hidx]
    exact ((ih _ (j + 1) hlen.symm).cons _).trans (perm_cons_eraseIdx l _ hidx).symm

theorem drawGo_length {α : Type} (rand : Nat → Nat) (hr : ∀ j, rand j < 4294967296) :
    ∀ (n : Nat) (l : List α) (j : Nat), n ≤ l.length → (drawGo rand j n l).length = n := by
  intro n
  induction n with
  | zero => intro l j _; simp [drawGo]
  | succ m ih =>
    intro l j h
    have hl : 0 < l.length := by omega
    have hidx : rand j * l.length / 4294967296 < l.length := idx_lt (hr j) hl
    have hlen : (l.eraseIdx (rand j * l.length / 4294967296)).length = l.length - 1 := by
      have := List.length_eraseIdx_add_one hidx
      omega
    simp only [drawGo]
    rw [List.getElem?_eq_getElem hidx]
    simp only [List.length_cons]
    rw [ih _ (j + 1) (by omega)]

/-- C8: drawing without replacement — for any 3 participants, requesting
3 winners yields exactly those participants, each exactly once, in some
order (a permutation); requesting 5 yields exactly 3 winners (the count is
clamped to the participant count). -/
theorem selectWinners_three {α : Type} (l : List α) (hl : l.length = 3)
    (rand : Nat → Nat) (hr : ∀ j, rand j < 4294967296) :
    (selectWinnersDraw l 3 rand).Perm l ∧ (selectWinnersDraw l 5 rand).length = 3 := by
  constructor
  · have h3 : min 3 l.length = 3 := by omega
    unfold selectWinnersDraw
    rw [h3]
    exact drawGo_perm rand hr 3 l 0 hl.symm
  · have h5 : min 5 l.length = 3 := by omega
    unfold selectWinnersDraw
    rw [h5]
    exact drawGo_length rand hr 3 l 0 (by omega)

theorem selectWinners_three_witness :
    ([0, 1, 2] : List Nat).length = 3 ∧
    (selectWinnersDraw ([0, 1, 2] : List Nat) 3 (fun _ => 0)).Perm [0, 1, 2] ∧
    (selectWinnersDraw ([0, 1, 2] : List Nat) 5 (fun _ => 0)).length = 3 :=
  ⟨rfl, (selectWinners_three [0, 1, 2] rfl (fun _ => 0) (fun _ => by norm_num)).1,
    (selectWinners_three [0, 1, 2] rfl (fun _ => 0) (fun _ => by norm_num)).2⟩

/-! ### Projection lemmas for the counter operations -/

@[simp] theorem incrementLocal_fallback (st : CtrState) (id : String) (opt : IncOptions) :
    (incrementLocal st id opt).1.fallbackEnabled = st.fallbackEnabled := rfl

@[simp] theorem incrementLocal_initialized (st : CtrState) (id : String) (opt : IncOptions) :
    (incrementLocal st id opt).1.initialized = st.initialized := rfl

@[simp] theorem incrementLocal_pending (st : CtrState) (id : String) (opt : IncOptions) :
    (incrementLocal st id opt).1.pendingIncrements = st.pendingIncrements := rfl

@[simp] theorem incrementLocal_flags (st : CtrState) (id : String) (opt : IncOptions) :
    (incrementLocal st id opt).1.sessionFlags = st.sessionFlags := rfl

@[simp] theorem incrementLocal_remote (st : CtrState) (id : String) (opt : IncOptions) :
    (incrementLocal st id opt).1.remote = st.remote := rfl

@[simp] theorem incrementLocal_counters (st : CtrState) (id : String) (opt : IncOptions) :
    (incrementLocal st id opt).1.localCounters = alSet st.localCounters id (localVal st id + 1) :=
  rfl

@[simp] theorem incrementLocal_ret (st : CtrState) (id : String) (opt : IncOptions) :
    (incrementLocal st id opt).2 = localVal st id + 1 := rfl

@[simp] theorem setFlag_fallback (st : CtrState) (id : String) :
    (setFlag st id).fallbackEnabled = st.fallbackEnabled := by
  unfold setFlag
  split <;> rfl

@[simp] theorem setFlag_initialized (st : CtrState) (id : String) :
    (setFlag st id).initialized = st.initialized := by
  unfold setFlag
  split <;> rfl

@[simp] theorem setFlag_pending (st : CtrState) (id : String) :
    (setFlag st id).pendingIncrements = st.pendingIncrements := by
  unfold setFlag
  split <;> rfl

@[simp] theorem setFlag_counters (st : CtrState) (id : String) :
    (setFlag st id).localCounters = st.localCounters := by
  unfold setFlag
  split <;> rfl

@[simp] theorem setFlag_remote (st : CtrState) (id : String) :
    (setFlag st id).remote = st.remote := by
  unfold setFlag
  split <;> rfl

@[simp] theorem setFlag_mem_self (st : CtrState) (id : String) :
    id ∈ (setFlag st id).sessionFlags := by
  unfold setFlag
  split
  next h => simpa using h
  next h => exact List.mem_cons_self id _

@[simp] theorem saveHistory_fallback (st : CtrState) (id : String) (opt : IncOptions) :
    (saveHistory st id opt).fallbackEnabled = st.fallbackEnabled := rfl

@[simp] theorem saveHistory_initialized (st : CtrState) (id : String) (opt : IncOptions) :
    (saveHistory st id opt).initialized = st.initialized := rfl

@[simp] theorem saveHistory_pending (st : CtrState) (id : String) (opt : IncOptions) :
    (saveHistory st id opt).pendingIncrements = st.pendingIncrements := rfl

@[simp] theorem saveHistory_flags (st : CtrState) (id : String) (opt : IncOptions) :
    (saveHistory st id opt).sessionFlags = st.sessionFlags := rfl

@[simp] theorem saveHistory_counters (st : CtrState) (id : String) (opt : IncOptions) :
    (saveHistory st id opt).localCounters = st.localCounters := rfl

@[simp] theorem saveHistory_remote (st : CtrState) (id : String) (opt : IncOptions) :
    (saveHistory st id opt).remote = st.remote := rfl

@[simp] theorem remoteInsert_fallback (st : CtrState) (id : String) (opt : IncOptions) (c : Nat) :
    (remoteInsert st id opt c).fallbackEnabled = st.fallbackEnabled := by
  unfold remoteInsert
  cases alGet st.remote id <;> rfl

@[simp] theorem remoteInsert_initialized (st : CtrState) (id : String) (opt : IncOptions)
    (c : Nat) : (remoteInsert st id opt c).initialized = st.initialized := by
  unfold remoteInsert
  cases alGet st.remote id <;> rfl

@[simp] theorem remoteInsert_pending (st : CtrState) (id : String) (opt : IncOptions) (c : Nat) :
    (remoteInsert st id opt c).pendingIncrements = st.pendingIncrements := by
  unfold remoteInsert
  cases alGet st.remote id <;> rfl

@[simp] theorem remoteInsert_flags (st : CtrState) (id : String) (opt : IncOptions) (c : Nat) :
    (remoteInsert st id opt c).sessionFlags = st.sessionFlags := by
  unfold remoteInsert
  cases alGet st.remote id <;> rfl

@[simp] theorem remoteInsert_counters (st : CtrState) (id : String) (opt : IncOptions) (c : Nat) :
    (remoteInsert st id opt c).localCounters = st.localCounters := by
  unfold remoteInsert
  cases alGet st.remote id <;> rfl

@[simp] theorem remoteUpdate_fallback (st : CtrState) (id : String) (c : Nat) :
    (remoteUpdate st id c).fallbackEnabled = st.fallbackEnabled := by
  unfold remoteUpdate
  cases alGet st.remote id <;> rfl

@[simp] theorem remoteUpdate_initialized (st : CtrState) (id : String) (c : Nat) :
    (remoteUpdate st id c).initialized = st.initialized := by
  unfold remoteUpdate
  cases alGet st.remote id <;> rfl

@[simp] theorem remoteUpdate_pending (st : CtrState) (id : String) (c : Nat) :
    (remoteUpdate st id c).pendingIncrements = st.pendingIncrements := by
  unfold remoteUpdate
  cases alGet st.remote id <;> rfl

@[simp] theorem remoteUpdate_flags (st : CtrState) (id : String) (c : Nat) :
    (remoteUpdate st id c).sessionFlags = st.sessionFlags := by
  unfold remoteUpdate
  cases alGet st.remote id <;> rfl

@[simp] theorem remoteUpdate_counters (st : CtrState) (id : String) (c : Nat) :
    (remoteUpdate st id c).localCounters = st.localCounters := by
  unfold remoteUpdate
  cases alGet st.remote id <;> rfl

@[simp] theorem finishIncrement_fallback (st : CtrState) (id : String) (opt : IncOptions)
    (n : Nat) : (finishIncrement st id opt n).1.fallbackEnabled = st.fallbackEnabled := by
  unfold finishIncrement
  simp

@[simp] theorem finishIncrement_initialized (st : CtrState) (id : String) (opt : IncOptions)
    (n : Nat) : (finishIncrement st id opt n).1.initialized = st.initialized := by
  unfold finishIncrement
  simp

@[simp] theorem finishIncrement_pending (st : CtrState) (id : String) (opt : IncOptions)
    (n : Nat) : (finishIncrement st id opt n).1.pendingIncrements = st.pendingIncrements := by
  unfold finishIncrement
  simp

@[simp] theorem finishIncrement_mem_flag (st : CtrState) (id : String) (opt : IncOptions)
    (n : Nat) : id ∈ (finishIncrement st id opt n).1.sessionFlags := by
  unfold finishIncrement
  show id ∈ (saveHistory (setFlag (incrementLocal st id opt).1 id) id opt).sessionFlags
  rw [saveHistory_flags]
  exact setFlag_mem_self _ id

@[simp] theorem finishIncrement_remote (st : CtrState) (id : String) (opt : IncOptions)
    (n : Nat) : (finishIncrement st id opt n).1.remote = st.remote := by
  unfold finishIncrement
  show (saveHistory (setFlag (incrementLocal st id opt).1 id) id opt).remote = st.remote
  rw [saveHistory_remote, setFlag_remote, incrementLocal_remote]

@[simp] theorem finishIncrement_counters (st : CtrState) (id : String) (opt : IncOptions)
    (n : Nat) : (finishIncrement st id opt n).1.localCounters =
      alSet st.localCounters id (localVal st id + 1) := by
  unfold finishIncrement
  show (saveHistory (setFlag (incrementLocal st id opt).1 id) id opt).localCounters = _
  rw [saveHistory_counters, setFlag_counters, incrementLocal_counters]

/-- incrementCounter never changes the mode flags: in every branch,
`initialized` and `fallbackEnabled` are untouched. -/
theorem inc_preserves_mode (st : CtrState) (id : String) (opt : IncOptions) (orc : IncOrc) :
    (incrementCounter st id opt orc).1.initialized = st.initialized ∧
    (incrementCounter st id opt orc).1.fallbackEnabled = st.fallbackEnabled := by
  unfold incrementCounter insertBranch
  by_cases h0 : st.initialized = false
  · rw [if_pos h0]
    exact ⟨incrementLocal_initialized _ id opt, incrementLocal_fallback _ id opt⟩
  · rw [if_neg h0]
    by_cases hflag : st.sessionFlags.contains id = true
    · rw [if_pos hflag]
      exact ⟨rfl, rfl⟩
    · rw [if_neg hflag]
      by_cases hfb : st.fallbackEnabled = true
      · rw [if_pos hfb]
        exact ⟨finishIncrement_initialized .., finishIncrement_fallback ..⟩
      · rw [if_neg hfb]
        cases orc.read with
        | thrown => exact ⟨incrementLocal_initialized .., incrementLocal_fallback ..⟩
        | err =>
          cases orc.ins with
          | thrown b => cases b <;> simp
          | err => exact ⟨finishIncrement_initialized .., finishIncrement_fallback ..⟩
          | ok => simp
        | ok =>
          cases hrow : alGet st.remote id with
          | none =>
            cases orc.ins with
            | thrown b => cases b <;> simp
            | err => exact ⟨finishIncrement_initialized .., finishIncrement_fallback ..⟩
            | ok => simp
          | some row =>
            cases orc.upd with
            | thrown b => cases b <;> simp
            | err => exact ⟨finishIncrement_initialized .., finishIncrement_fallback ..⟩
            | ok => simp

/-- A remote environment in which every call succeeds. -/
def okOrc : IncOrc where
  read := .ok
  ins := .ok
  upd := .ok
  getRead := .ok

/-- No remote call of this incrementCounter invocation throws (they may
still return errors). -/
def noThrow (orc : IncOrc) : Prop :=
  orc.read ≠ ReadRes.thrown ∧ (∀ b, orc.ins ≠ WriteRes.thrown b) ∧
    (∀ b, orc.upd ≠ WriteRes.thrown b)

instance (orc : IncOrc) : Decidable (noThrow orc) := by
  unfold noThrow
  infer_instance

/-- C2 counterexample: from a fresh system, two incrementCounter calls on
the same counter made before initialization completes (the per-tab flag is
never set, hence never cleared in between) move the reconciled value
0 → 1 → 2: it changes twice, not at most once, already before the
initialization drain replays the queued increments. -/
theorem inc_twice_preinit_changes_twice :
    getCounterValue (runOps []) ReadRes.ok "x" = 0 ∧
    getCounterValue (runOps [Op.opInc "x" ⟨none⟩ okOrc]) ReadRes.ok "x" = 1 ∧
    getCounterValue (runOps [Op.opInc "x" ⟨none⟩ okOrc, Op.opInc "x" ⟨none⟩ okOrc])
      ReadRes.ok "x" = 2 ∧
    (runOps [Op.opInc "x" ⟨none⟩ okOrc, Op.opInc "x" ⟨none⟩ okOrc]).sessionFlags = [] := by
  refine ⟨rfl, rfl, rfl, rfl⟩

/-- With the engine initialized and the per-tab flag present, an
incrementCounter call is a pure read: it returns getCounterValue and does
not touch the state. -/
theorem inc_flagged_noop (st : CtrState) (id : String) (opt : IncOptions) (orc : IncOrc)
    (hinit : st.initialized = true) (hflag : id ∈ st.sessionFlags) :
    incrementCounter st id opt orc = (st, getCounterValue st orc.getRead id) := by
  unfold incrementCounter
  rw [if_neg (by simp [hinit]), if_pos (by simpa using hflag)]

/-- After a post-initialization incrementCounter whose remote calls did
not throw, the per-tab flag for that counter is present. -/
theorem inc_sets_flag (st : CtrState) (id : String) (opt : IncOptions) (orc : IncOrc)
    (hinit : st.initialized = true) (h1 : noThrow orc) :
    id ∈ (incrementCounter st id opt orc).1.sessionFlags := by
  obtain ⟨hr, hi, hu⟩ := h1
  unfold incrementCounter insertBranch
  rw [if_neg (by simp [hinit])]
  by_cases hflag : st.sessionFlags.contains id = true
  · rw [if_pos hflag]
    simpa using hflag
  · rw [if_neg hflag]
    by_cases hfb : st.fallbackEnabled = true
    · rw [if_pos hfb]
      exact finishIncrement_mem_flag ..
    · rw [if_neg hfb]
      cases horc : orc.read with
      | thrown => exact absurd horc hr
      | err =>
        cases horc2 : orc.ins with
        | thrown b => exact absurd horc2 (hi b)
        | err => exact finishIncrement_mem_flag ..
        | ok => exact finishIncrement_mem_flag ..
      | ok =>
        cases hrow : alGet st.remote id with
        | none =>
          cases horc2 : orc.ins with
          | thrown b => exact absurd horc2 (hi b)
          | err => exact finishIncrement_mem_flag ..
          | ok => exact finishIncrement_mem_flag ..
        | some row =>
          cases horc2 : orc.upd with
          | thrown b => exact absurd horc2 (hu b)
          | err => exact finishIncrement_mem_flag ..
          | ok => exact finishIncrement_mem_flag ..

/-- C2 (amended): if both incrementCounter calls happen after
initialization has completed and no remote call of the first one throws,
the second call returns the current reconciled value and leaves the whole
state unchanged — so the pair of calls changes the reconciled value at
most once (pre-initialization calls, by contrast, are counted locally at
once and replayed again by the drain). -/
theorem inc_twice_postinit_at_most_once (st : CtrState) (id : String)
    (opt opt2 : IncOptions) (orc1 orc2 : IncOrc) (hinit : st.initialized = true)
    (h1 : noThrow orc1) :
    (incrementCounter (incrementCounter st id opt orc1).1 id opt2 orc2).1 =
      (incrementCounter st id opt orc1).1 ∧
    (incrementCounter (incrementCounter st id opt orc1).1 id opt2 orc2).2 =
      getCounterValue (incrementCounter st id opt orc1).1 orc2.getRead id := by
  have hI : (incrementCounter st id opt orc1).1.initialized = true :=
    (inc_preserves_mode st id opt orc1).1.trans hinit
  have hF : id ∈ (incrementCounter st id opt orc1).1.sessionFlags :=
    inc_sets_flag st id opt orc1 hinit h1
  rw [inc_flagged_noop _ id opt2 orc2 hI hF]
  exact ⟨rfl, rfl⟩

theorem inc_twice_postinit_at_most_once_witness :
    (initSystem freshState ReadRes.ok (fun _ => okOrc)).initialized = true ∧
    noThrow okOrc ∧
    (incrementCounter (incrementCounter (initSystem freshState ReadRes.ok (fun _ => okOrc))
        "x" ⟨none⟩ okOrc).1 "x" ⟨none⟩ okOrc).1 =
      (incrementCounter (initSystem freshState ReadRes.ok (fun _ => okOrc))
        "x" ⟨none⟩ okOrc).1 ∧
    (incrementCounter (incrementCounter (initSystem freshState ReadRes.ok (fun _ => okOrc))
        "x" ⟨none⟩ okOrc).1 "x" ⟨none⟩ okOrc).2 =
      getCounterValue (incrementCounter (initSystem freshState ReadRes.ok (fun _ => okOrc))
        "x" ⟨none⟩ okOrc).1 okOrc.getRead "x" :=
  ⟨rfl, by decide,
    (inc_twice_postinit_at_most_once _ "x" ⟨none⟩ ⟨none⟩ okOrc okOrc rfl (by decide)).1,
    (inc_twice_postinit_at_most_once _ "x" ⟨none⟩ ⟨none⟩ okOrc okOrc rfl (by decide)).2⟩

/-- C3 counterexample: if the initialization probe throws, initialize ends
with `initialized = true` but the pending-increment queue is neither
drained nor emptied — here a queue holding one pre-initialization
increment survives initialize untouched. -/
theorem init_throw_leaves_queue :
    (initSystem (runOps [Op.opInc "x" ⟨none⟩ okOrc]) ReadRes.thrown
      (fun _ => okOrc)).initialized = true ∧
    (initSystem (runOps [Op.opInc "x" ⟨none⟩ okOrc]) ReadRes.thrown
      (fun _ => okOrc)).pendingIncrements = [("x", ⟨none⟩)] ∧
    (initSystem (runOps [Op.opInc "x" ⟨none⟩ okOrc]) ReadRes.thrown
      (fun _ => okOrc)).pendingIncrements ≠ [] := by
  refine ⟨rfl, rfl, by decide⟩

theorem drainPending_eq_foldl (orcs : Nat → IncOrc) :
    ∀ (pend : List (String × IncOptions)) (i : Nat) (st : CtrState),
      drainPending orcs i pend st =
        (pend.enumFrom i).foldl
          (fun s q => (incrementCounter s q.2.1 q.2.2 (orcs q.1)).1) st := by
  intro pend
  induction pend with
  | nil => intro i st; rfl
  | cons p rest ih =>
    intro i st
    obtain ⟨id, opt⟩ := p
    simp [drainPending, List.enumFrom, ih]

theorem drainPending_initialized (orcs : Nat → IncOrc) :
    ∀ (pend : List (String × IncOptions)) (i : Nat) (st : CtrState),
      (drainPending orcs i pend st).initialized = st.initialized := by
  intro pend
  induction pend with
  | nil => intro i st; rfl
  | cons p rest ih =>
    intro i st
    obtain ⟨id, opt⟩ := p
    rw [drainPending, ih, (inc_preserves_mode st id opt (orcs i)).1]

theorem initSystem_ok_eq (st : CtrState) (orcs : Nat → IncOrc) :
    initSystem st ReadRes.ok orcs =
      { drainPending orcs 0 st.pendingIncrements
          { st with fallbackEnabled := false, initialized := true } with
        pendingIncrements := [] } := rfl

theorem initSystem_err_eq (st : CtrState) (orcs : Nat → IncOrc) :
    initSystem st ReadRes.err orcs =
      { drainPending orcs 0 st.pendingIncrements
          { st with fallbackEnabled := true, initialized := true } with
        pendingIncrements := [] } := rfl

/-- C3 (amended): initialize always terminates with `initialized = true`;
when the probe returns normally (success or error) the resulting state is
exactly the strictly sequential FIFO drain — each queued increment applied
in submission order, the (i+1)-th starting from the state the i-th
produced — followed by emptying the queue; when the probe throws, the
catch sets the mode flags only and the queue is left untouched
(not drained, not emptied). -/
theorem initSystem_drains_fifo (st : CtrState) (probe : ReadRes) (orcs : Nat → IncOrc) :
    (initSystem st probe orcs).initialized = true ∧
    (probe ≠ ReadRes.thrown →
      initSystem st probe orcs =
        { (st.pendingIncrements.enum.foldl
            (fun s q => (incrementCounter s q.2.1 q.2.2 (orcs q.1)).1)
            { st with fallbackEnabled := decide (probe = ReadRes.err), initialized := true })
          with pendingIncrements := [] }) ∧
    (probe = ReadRes.thrown →
      initSystem st probe orcs = { st with fallbackEnabled := true, initialized := true }) := by
  cases probe with
  | thrown => exact ⟨rfl, fun h => absurd rfl h, fun _ => rfl⟩
  | ok =>
    refine ⟨?_, fun _ => ?_, fun h => absurd h (by simp)⟩
    · rw [initSystem_ok_eq]
      show (drainPending orcs 0 st.pendingIncrements
        { st with fallbackEnabled := false, initialized := true }).initialized = true
      rw [drainPending_initialized]
    · rw [initSystem_ok_eq, drainPending_eq_foldl]
      rfl
  | err =>
    refine ⟨?_, fun _ => ?_, fun h => absurd h (by simp)⟩
    · rw [initSystem_err_eq]
      show (drainPending orcs 0 st.pendingIncrements
        { st with fallbackEnabled := true, initialized := true }).initialized = true
      rw [drainPending_initialized]
    · rw [initSystem_err_eq, drainPending_eq_foldl]
      rfl

theorem initSystem_drains_fifo_witness :
    (ReadRes.ok ≠ ReadRes.thrown) ∧
    initSystem (runOps [Op.opInc "x" ⟨none⟩ okOrc]) ReadRes.ok (fun _ => okOrc) =
      { ((runOps [Op.opInc "x" ⟨none⟩ okOrc]).pendingIncrements.enum.foldl
          (fun s q => (incrementCounter s q.2.1 q.2.2 ((fun _ => okOrc) q.1)).1)
          { runOps [Op.opInc "x" ⟨none⟩ okOrc] with
              fallbackEnabled := decide ((ReadRes.ok) = ReadRes.err), initialized := true })
        with pendingIncrements := [] } :=
  ⟨by decide,
    (initSystem_drains_fifo (runOps [Op.opInc "x" ⟨none⟩ okOrc]) ReadRes.ok
      (fun _ => okOrc)).2.1 (by decide)⟩

/-! ### The merge-by-maximum invariant: remote never exceeds local

In any run of the embedded system from the constructor state, each
remotely stored count stays at or below the local mirror, because every
remote write pushes a value derived from (and bounded by) the local side.
Under this invariant getCounterValue always answers with the local mirror,
whose monotonicity gives the monotonicity property of the spec. -/

theorem remoteInsert_absent_self (st : CtrState) (id : String) (opt : IncOptions) (c : Nat)
    (h : alGet st.remote id = none) :
    alGet (remoteInsert st id opt c).remote id =
      some { count := c, pageName := opt.pageName.getD id } := by
  simp only [remoteInsert, h]
  exact alGet_alSet_self _ _ _

theorem remoteInsert_present_eq (st : CtrState) (id : String) (opt : IncOptions) (c : Nat)
    (row : RemoteRow) (h : alGet st.remote id = some row) :
    remoteInsert st id opt c = st := by
  simp only [remoteInsert, h]

theorem remoteInsert_get_other (st : CtrState) (id : String) (opt : IncOptions) (c : Nat)
    (id2 : String) (hne : id2 ≠ id) :
    alGet (remoteInsert st id opt c).remote id2 = alGet st.remote id2 := by
  cases h : alGet st.remote id with
  | some row => simp only [remoteInsert, h]
  | none =>
    simp only [remoteInsert, h]
    exact alGet_alSet_ne _ _ hne

theorem remoteUpdate_present_self (st : CtrState) (id : String) (c : Nat) (row : RemoteRow)
    (h : alGet st.remote id = some row) :
    alGet (remoteUpdate st id c).remote id = some { row with count := c } := by
  simp only [remoteUpdate, h]
  exact alGet_alSet_self _ _ _

theorem remoteUpdate_absent_eq (st : CtrState) (id : String) (c : Nat)
    (h : alGet st.remote id = none) : remoteUpdate st id c = st := by
  simp only [remoteUpdate, h]

theorem remoteUpdate_get_other (st : CtrState) (id : String) (c : Nat) (id2 : String)
    (hne : id2 ≠ id) :
    alGet (remoteUpdate st id c).remote id2 = alGet st.remote id2 := by
  cases h : alGet st.remote id with
  | some row =>
    simp only [remoteUpdate, h]
    exact alGet_alSet_ne _ _ hne
  | none => simp only [remoteUpdate, h]

@[simp] theorem localVal_remoteInsert (st : CtrState) (id : String) (opt : IncOptions) (c : Nat)
    (i2 : String) : localVal (remoteInsert st id opt c) i2 = localVal st i2 := by
  unfold localVal
  rw [remoteInsert_counters]

@[simp] theorem localVal_remoteUpdate (st : CtrState) (id : String) (c : Nat) (i2 : String) :
    localVal (remoteUpdate st id c) i2 = localVal st i2 := by
  unfold localVal
  rw [remoteUpdate_counters]

/-- The invariant: each remote count is at most the local mirror. -/
def RemoteLeLocal (st : CtrState) : Prop :=
  ∀ id row, alGet st.remote id = some row → row.count ≤ localVal st id

theorem localVal_mono_alSet (st st2 : CtrState) (id : String)
    (hcnt : st2.localCounters = alSet st.localCounters id (localVal st id + 1)) :
    ∀ i2, localVal st i2 ≤ localVal st2 i2 := by
  intro i2
  unfold localVal
  rw [hcnt]
  by_cases hi : i2 = id
  · subst hi
    rw [alGet_alSet_self]
    exact Nat.le_succ _
  · rw [alGet_alSet_ne _ _ hi]

theorem localVal_eq_alSet_self (st st2 : CtrState) (id : String)
    (hcnt : st2.localCounters = alSet st.localCounters id (localVal st id + 1)) :
    localVal st2 id = localVal st id + 1 := by
  unfold localVal
  rw [hcnt, alGet_alSet_self]
  rfl

theorem localVal_eq_alSet_other (st st2 : CtrState) (id : String)
    (hcnt : st2.localCounters = alSet st.localCounters id (localVal st id + 1))
    (i2 : String) (hne : i2 ≠ id) : localVal st2 i2 = localVal st i2 := by
  unfold localVal
  rw [hcnt, alGet_alSet_ne _ _ hne]

/-- Invariant preservation when the remote store is untouched and the
local mirror only grows. -/
theorem inv_unchanged_remote (st st2 : CtrState) (h : RemoteLeLocal st)
    (hrem : st2.remote = st.remote)
    (hloc : ∀ i2, localVal st i2 ≤ localVal st2 i2) : RemoteLeLocal st2 := by
  intro i2 row hr
  rw [hrem] at hr
  exact le_trans (h i2 row hr) (hloc i2)

/-- Invariant preservation for the inserted-at-1 branch: the remote row
for `id` (if the insert applied) holds 1, and the local mirror for `id`
was bumped to at least 1. -/
theorem inv_after_insert (st : CtrState) (id : String) (opt : IncOptions) (st2 : CtrState)
    (h : RemoteLeLocal st)
    (hrem : st2.remote = (remoteInsert st id opt 1).remote)
    (hcnt : st2.localCounters = alSet st.localCounters id (localVal st id + 1)) :
    RemoteLeLocal st2 := by
  intro i2 row hr
  by_cases hi : i2 = id
  · subst hi
    rw [hrem] at hr
    cases hrow : alGet st.remote i2 with
    | none =>
      rw [remoteInsert_absent_self st i2 opt 1 hrow] at hr
      cases hr
      rw [localVal_eq_alSet_self st st2 i2 hcnt]
      exact Nat.succ_le_succ (Nat.zero_le _)
    | some row0 =>
      rw [remoteInsert_present_eq st i2 opt 1 row0 hrow] at hr
      rw [localVal_eq_alSet_self st st2 i2 hcnt]
      exact le_trans (h i2 row hr) (Nat.le_succ _)
  · rw [hrem, remoteInsert_get_other st id opt 1 i2 hi] at hr
    rw [localVal_eq_alSet_other st st2 id hcnt i2 hi]
    exact h i2 row hr

/-- Invariant preservation for the update branch: the remote row for `id`
moves to `row0.count + 1 ≤ localVal st id + 1`, matching the local bump. -/
theorem inv_after_update (st : CtrState) (id : String) (row0 : RemoteRow) (st2 : CtrState)
    (h : RemoteLeLocal st) (hrow : alGet st.remote id = some row0)
    (hrem : st2.remote = (remoteUpdate st id (row0.count + 1)).remote)
    (hcnt : st2.localCounters = alSet st.localCounters id (localVal st id + 1)) :
    RemoteLeLocal st2 := by
  intro i2 row hr
  by_cases hi : i2 = id
  · subst hi
    rw [hrem, remoteUpdate_present_self st i2 _ row0 hrow] at hr
    cases hr
    rw [localVal_eq_alSet_self st st2 i2 hcnt]
    exact Nat.succ_le_succ (h i2 row0 hrow)
  · rw [hrem, remoteUpdate_get_other st id _ i2 hi] at hr
    rw [localVal_eq_alSet_other st st2 id hcnt i2 hi]
    exact h i2 row hr

/-- In every branch, incrementCounter only grows the local mirrors, and it
preserves the remote-at-most-local invariant. -/
theorem inc_effects (st : CtrState) (id : String) (opt : IncOptions) (orc : IncOrc) :
    (∀ i2, localVal st i2 ≤ localVal (incrementCounter st id opt orc).1 i2) ∧
    (RemoteLeLocal st → RemoteLeLocal (incrementCounter st id opt orc).1) := by
  unfold incrementCounter insertBranch
  by_cases h0 : st.initialized = false
  · rw [if_pos h0]
    exact ⟨localVal_mono_alSet st _ id rfl,
      fun h => inv_unchanged_remote st _ h rfl (localVal_mono_alSet st _ id rfl)⟩
  · rw [if_neg h0]
    by_cases hflag : st.sessionFlags.contains id = true
    · rw [if_pos hflag]
      exact ⟨fun i2 => le_refl _, fun h => h⟩
    · rw [if_neg hflag]
      by_cases hfb : st.fallbackEnabled = true
      · rw [if_pos hfb]
        exact ⟨localVal_mono_alSet st _ id (finishIncrement_counters ..),
          fun h => inv_unchanged_remote st _ h (finishIncrement_remote ..)
            (localVal_mono_alSet st _ id (finishIncrement_counters ..))⟩
      · rw [if_neg hfb]
        cases orc.read with
        | thrown =>
          exact ⟨localVal_mono_alSet st _ id rfl,
            fun h => inv_unchanged_remote st _ h rfl (localVal_mono_alSet st _ id rfl)⟩
        | err =>
          cases orc.ins with
          | thrown b =>
            cases b with
            | false =>
              exact ⟨localVal_mono_alSet st _ id rfl,
                fun h => inv_unchanged_remote st _ h rfl (localVal_mono_alSet st _ id rfl)⟩
            | true =>
              refine ⟨localVal_mono_alSet st _ id ?_, fun h => inv_after_insert st id opt _ h ?_ ?_⟩
              · show alSet (remoteInsert st id opt 1).localCounters id
                  (localVal (remoteInsert st id opt 1) id + 1) = _
                rw [remoteInsert_counters, localVal_remoteInsert]
              · rfl
              · show alSet (remoteInsert st id opt 1).localCounters id
                  (localVal (remoteInsert st id opt 1) id + 1) = _
                rw [remoteInsert_counters, localVal_remoteInsert]
          | err =>
            exact ⟨localVal_mono_alSet st _ id (finishIncrement_counters ..),
              fun h => inv_unchanged_remote st _ h (finishIncrement_remote ..)
                (localVal_mono_alSet st _ id (finishIncrement_counters ..))⟩
          | ok =>
            refine ⟨localVal_mono_alSet st _ id ?_, fun h => inv_after_insert st id opt _ h ?_ ?_⟩
            · rw [finishIncrement_counters, remoteInsert_counters, localVal_remoteInsert]
            · rw [finishIncrement_remote]
            · rw [finishIncrement_counters, remoteInsert_counters, localVal_remoteInsert]
        | ok =>
          cases hrow : alGet st.remote id with
          | none =>
            cases orc.ins with
            | thrown b =>
              cases b with
              | false =>
                exact ⟨localVal_mono_alSet st _ id rfl,
                  fun h => inv_unchanged_remote st _ h rfl (localVal_mono_alSet st _ id rfl)⟩
              | true =>
                refine ⟨localVal_mono_alSet st _ id ?_,
                  fun h => inv_after_insert st id opt _ h ?_ ?_⟩
                · show alSet (remoteInsert st id opt 1).localCounters id
                    (localVal (remoteInsert st id opt 1) id + 1) = _
                  rw [remoteInsert_counters, localVal_remoteInsert]
                · rfl
                · show alSet (remoteInsert st id opt 1).localCounters id
                    (localVal (remoteInsert st id opt 1) id + 1) = _
                  rw [remoteInsert_counters, localVal_remoteInsert]
            | err =>
              exact ⟨localVal_mono_alSet st _ id (finishIncrement_counters ..),
                fun h => inv_unchanged_remote st _ h (finishIncrement_remote ..)
                  (localVal_mono_alSet st _ id (finishIncrement_counters ..))⟩
            | ok =>
              refine ⟨localVal_mono_alSet st _ id ?_,
                fun h => inv_after_insert st id opt _ h ?_ ?_⟩
              · rw [finishIncrement_counters, remoteInsert_counters, localVal_remoteInsert]
              · rw [finishIncrement_remote]
              · rw [finishIncrement_counters, remoteInsert_counters, localVal_remoteInsert]
          | some row =>
            cases orc.upd with
            | thrown b =>
              cases b with
              | false =>
                exact ⟨localVal_mono_alSet st _ id rfl,
                  fun h => inv_unchanged_remote st _ h rfl (localVal_mono_alSet st _ id rfl)⟩
              | true =>
                refine ⟨localVal_mono_alSet st _ id ?_,
                  fun h => inv_after_update st id row _ h hrow ?_ ?_⟩
                · show alSet (remoteUpdate st id (row.count + 1)).localCounters id
                    (localVal (remoteUpdate st id (row.count + 1)) id + 1) = _
                  rw [remoteUpdate_counters, localVal_remoteUpdate]
                · rfl
                · show alSet (remoteUpdate st id (row.count + 1)).localCounters id
                    (localVal (remoteUpdate st id (row.count + 1)) id + 1) = _
                  rw [remoteUpdate_counters, localVal_remoteUpdate]
            | err =>
              exact ⟨localVal_mono_alSet st _ id (finishIncrement_counters ..),
                fun h => inv_unchanged_remote st _ h (finishIncrement_remote ..)
                  (localVal_mono_alSet st _ id (finishIncrement_counters ..))⟩
            | ok =>
              refine ⟨localVal_mono_alSet st _ id ?_,
                fun h => inv_after_update st id row _ h hrow ?_ ?_⟩
              · rw [finishIncrement_counters, remoteUpdate_counters, localVal_remoteUpdate]
              · rw [finishIncrement_remote]
              · rw [finishIncrement_counters, remoteUpdate_counters, localVal_remoteUpdate]

/-! ### Effects of the sync sweep -/

theorem inv_sync_insert (st : CtrState) (id : String) (opt : IncOptions)
    (h : RemoteLeLocal st) : RemoteLeLocal (remoteInsert st id opt (localVal st id)) := by
  intro i2 row hr
  rw [localVal_remoteInsert]
  by_cases hi : i2 = id
  · subst hi
    cases hrow : alGet st.remote i2 with
    | none =>
      rw [remoteInsert_absent_self st i2 opt _ hrow] at hr
      cases hr
      exact le_refl _
    | some row0 =>
      rw [remoteInsert_present_eq st i2 opt _ row0 hrow] at hr
      exact h _ _ hr
  · rw [remoteInsert_get_other st id opt _ i2 hi] at hr
    exact h _ _ hr

theorem inv_sync_update (st : CtrState) (id : String) (h : RemoteLeLocal st) :
    RemoteLeLocal (remoteUpdate st id (localVal st id)) := by
  intro i2 row hr
  rw [localVal_remoteUpdate]
  by_cases hi : i2 = id
  · subst hi
    cases hrow : alGet st.remote i2 with
    | some row0 =>
      rw [remoteUpdate_present_self st i2 _ row0 hrow] at hr
      cases hr
      exact le_refl _
    | none =>
      rw [remoteUpdate_absent_eq st i2 _ hrow] at hr
      exact h _ _ hr
  · rw [remoteUpdate_get_other st id _ i2 hi] at hr
    exact h _ _ hr

theorem remote_mono_insert (st : CtrState) (id : String) (opt : IncOptions) (c : Nat) :
    ∀ i2 row, alGet st.remote i2 = some row →
      ∃ row2, alGet (remoteInsert st id opt c).remote i2 = some row2 ∧
        row.count ≤ row2.count := by
  intro i2 row hr
  by_cases hi : i2 = id
  · subst hi
    rw [remoteInsert_present_eq st i2 opt c row hr]
    exact ⟨row, hr, le_refl _⟩
  · rw [remoteInsert_get_other st id opt c i2 hi]
    exact ⟨row, hr, le_refl _⟩

theorem remote_mono_update (st : CtrState) (id : String) (c : Nat) (row0 : RemoteRow)
    (hrow : alGet st.remote id = some row0) (hc : row0.count ≤ c) :
    ∀ i2 row, alGet st.remote i2 = some row →
      ∃ row2, alGet (remoteUpdate st id c).remote i2 = some row2 ∧
        row.count ≤ row2.count := by
  intro i2 row hr
  by_cases hi : i2 = id
  · subst hi
    rw [remoteUpdate_present_self st i2 c row0 hrow]
    refine ⟨_, rfl, ?_⟩
    have hrr : row = row0 := by
      rw [hrow] at hr
      exact (Option.some.injEq _ _ ▸ hr).symm
    rw [hrr]
    exact hc
  · rw [remoteUpdate_get_other st id c i2 hi]
    exact ⟨row, hr, le_refl _⟩

theorem syncOne_counters (orc : SyncOrc) (id : String) (st : CtrState) :
    (syncOne orc id st).1.localCounters = st.localCounters := by
  unfold syncOne
  cases orc.read id with
  | thrown => rfl
  | err =>
    cases orc.write id with
    | thrown b => cases b <;> simp
    | err => rfl
    | ok => simp
  | ok =>
    cases hrow : alGet st.remote id with
    | none =>
      cases orc.write id with
      | thrown b => cases b <;> simp [hrow]
      | err => simp [hrow]
      | ok => simp [hrow]
    | some row =>
      by_cases hv : row.count < localVal st id
      · cases orc.write id with
        | thrown b => cases b <;> simp [hrow, hv]
        | err => simp [hrow, hv]
        | ok => simp [hrow, hv]
      · simp [hrow, hv]

theorem syncOne_fallback (orc : SyncOrc) (id : String) (st : CtrState) :
    (syncOne orc id st).1.fallbackEnabled = st.fallbackEnabled := by
  unfold syncOne
  cases orc.read id with
  | thrown => rfl
  | err =>
    cases orc.write id with
    | thrown b => cases b <;> simp
    | err => rfl
    | ok => simp
  | ok =>
    cases hrow : alGet st.remote id with
    | none =>
      cases orc.write id with
      | thrown b => cases b <;> simp [hrow]
      | err => simp [hrow]
      | ok => simp [hrow]
    | some row =>
      by_cases hv : row.count < localVal st id
      · cases orc.write id with
        | thrown b => cases b <;> simp [hrow, hv]
        | err => simp [hrow, hv]
        | ok => simp [hrow, hv]
      · simp [hrow, hv]

theorem syncOne_inv (orc : SyncOrc) (id : String) (st : CtrState) (h : RemoteLeLocal st) :
    RemoteLeLocal (syncOne orc id st).1 := by
  unfold syncOne
  cases orc.read id with
  | thrown => exact h
  | err =>
    cases orc.write id with
    | thrown b =>
      cases b with
      | false => exact h
      | true => exact inv_sync_insert st id ⟨none⟩ h
    | err => exact h
    | ok => exact inv_sync_insert st id ⟨none⟩ h
  | ok =>
    cases hrow : alGet st.remote id with
    | none =>
      simp only [hrow, Option.map]
      cases orc.write id with
      | thrown b =>
        cases b with
        | false => exact h
        | true => exact inv_sync_insert st id ⟨none⟩ h
      | err => exact h
      | ok => exact inv_sync_insert st id ⟨none⟩ h
    | some row =>
      simp only [hrow, Option.map]
      by_cases hv : row.count < localVal st id
      · rw [if_pos hv]
        cases orc.write id with
        | thrown b =>
          cases b with
          | false => exact h
          | true => exact inv_sync_update st id h
        | err => exact h
        | ok => exact inv_sync_update st id h
      · rw [if_neg hv]
        exact h

theorem syncOne_remote_mono (orc : SyncOrc) (id : String) (st : CtrState) :
    ∀ i2 row, alGet st.remote i2 = some row →
      ∃ row2, alGet (syncOne orc id st).1.remote i2 = some row2 ∧
        row.count ≤ row2.count := by
  unfold syncOne
  cases orc.read id with
  | thrown => exact fun i2 row hr => ⟨row, hr, le_refl _⟩
  | err =>
    cases orc.write id with
    | thrown b =>
      cases b with
      | false => exact fun i2 row hr => ⟨row, hr, le_refl _⟩
      | true => exact remote_mono_insert st id ⟨none⟩ _
    | err => exact fun i2 row hr => ⟨row, hr, le_refl _⟩
    | ok => exact remote_mono_insert st id ⟨none⟩ _
  | ok =>
    cases hrow : alGet st.remote id with
    | none =>
      simp only [hrow, Option.map]
      cases orc.write id with
      | thrown b =>
        cases b with
        | false => exact fun i2 row hr => ⟨row, hr, le_refl _⟩
        | true => exact remote_mono_insert st id ⟨none⟩ _
      | err => exact fun i2 row hr => ⟨row, hr, le_refl _⟩
      | ok => exact remote_mono_insert st id ⟨none⟩ _
    | some row =>
      simp only [hrow, Option.map]
      by_cases hv : row.count < localVal st id
      · rw [if_pos hv]
        cases orc.write id with
        | thrown b =>
          cases b with
          | false => exact fun i2 row2 hr => ⟨row2, hr, le_refl _⟩
          | true => exact remote_mono_update st id _ row hrow (Nat.le_of_lt hv)
        | err => exact fun i2 row2 hr => ⟨row2, hr, le_refl _⟩
        | ok => exact remote_mono_update st id _ row hrow (Nat.le_of_lt hv)
      · rw [if_neg hv]
        exact fun i2 row2 hr => ⟨row2, hr, le_refl _⟩

/-- All remote calls of a sync run succeed. -/
def okSyncOrc (orc : SyncOrc) : Prop :=
  ∀ id, orc.read id = ReadRes.ok ∧ orc.write id = WriteRes.ok

theorem syncOne_ok_post (orc : SyncOrc) (id : String) (st : CtrState) (ho : okSyncOrc orc) :
    (syncOne orc id st).2.2 = true ∧
    ∃ row, alGet (syncOne orc id st).1.remote id = some row ∧
      localVal st id ≤ row.count := by
  obtain ⟨hro, hwo⟩ := ho id
  unfold syncOne
  rw [hro, hwo]
  cases hrow : alGet st.remote id with
  | none =>
    simp only [Option.map]
    refine ⟨by trivial, ?_⟩
    rw [remoteInsert_absent_self st id ⟨none⟩ _ hrow]
    exact ⟨_, rfl, le_refl _⟩
  | some row =>
    simp only [Option.map]
    by_cases hv : row.count < localVal st id
    · rw [if_pos hv]
      refine ⟨by trivial, ?_⟩
      rw [remoteUpdate_present_self st id _ row hrow]
      exact ⟨_, rfl, le_refl _⟩
    · rw [if_neg hv]
      exact ⟨by trivial, row, hrow, Nat.not_lt.mp hv⟩

theorem syncOne_satisfied_noop (orc : SyncOrc) (id : String) (st : CtrState)
    (hro : orc.read id = ReadRes.ok) (row : RemoteRow)
    (hrow : alGet st.remote id = some row) (hle : localVal st id ≤ row.count) :
    syncOne orc id st = (st, [], true) := by
  unfold syncOne
  rw [hro]
  simp only [hrow, Option.map]
  rw [if_neg (Nat.not_lt.mpr hle)]

theorem syncGo_counters (orc : SyncOrc) :
    ∀ (keys : List String) (st : CtrState) (log : List WEvent),
      (syncGo orc keys st log).1.localCounters = st.localCounters := by
  intro keys
  induction keys with
  | nil => intro st log; rfl
  | cons id rest ih =>
    intro st log
    simp only [syncGo]
    by_cases hc : (syncOne orc id st).2.2 = true
    · rw [if_pos hc, ih, syncOne_counters]
    · rw [if_neg hc]
      exact syncOne_counters orc id st

theorem syncGo_fallback (orc : SyncOrc) :
    ∀ (keys : List String) (st : CtrState) (log : List WEvent),
      (syncGo orc keys st log).1.fallbackEnabled = st.fallbackEnabled := by
  intro keys
  induction keys with
  | nil => intro st log; rfl
  | cons id rest ih =>
    intro st log
    simp only [syncGo]
    by_cases hc : (syncOne orc id st).2.2 = true
    · rw [if_pos hc, ih, syncOne_fallback]
    · rw [if_neg hc]
      exact syncOne_fallback orc id st

theorem syncGo_inv (orc : SyncOrc) :
    ∀ (keys : List String) (st : CtrState) (log : List WEvent), RemoteLeLocal st →
      RemoteLeLocal (syncGo orc keys st log).1 := by
  intro keys
  induction keys with
  | nil => intro st log h; exact h
  | cons id rest ih =>
    intro st log h
    simp only [syncGo]
    by_cases hc : (syncOne orc id st).2.2 = true
    · rw [if_pos hc]
      exact ih _ _ (syncOne_inv orc id st h)
    · rw [if_neg hc]
      exact syncOne_inv orc id st h

theorem syncGo_remote_mono (orc : SyncOrc) :
    ∀ (keys : List String) (st : CtrState) (log : List WEvent) (i2 : String)
      (row : RemoteRow), alGet st.remote i2 = some row →
      ∃ row2, alGet (syncGo orc keys st log).1.remote i2 = some row2 ∧
        row.count ≤ row2.count := by
  intro keys
  induction keys with
  | nil => intro st log i2 row hr; exact ⟨row, hr, le_refl _⟩
  | cons id rest ih =>
    intro st log i2 row hr
    simp only [syncGo]
    obtain ⟨row1, hr1, hle1⟩ := syncOne_remote_mono orc id st i2 row hr
    by_cases hc : (syncOne orc id st).2.2 = true
    · rw [if_pos hc]
      obtain ⟨row2, hr2, hle2⟩ := ih (syncOne orc id st).1 (log ++ (syncOne orc id st).2.1)
        i2 row1 hr1
      exact ⟨row2, hr2, le_trans hle1 hle2⟩
    · rw [if_neg hc]
      exact ⟨row1, hr1, hle1⟩

/-- After a fully successful sweep, every swept id has a remote row at or
above its local mirror. -/
theorem syncGo_ok_post (orc : SyncOrc) (ho : okSyncOrc orc) :
    ∀ (keys : List String) (st : CtrState) (log : List WEvent) (id : String),
      id ∈ keys →
      ∃ row, alGet (syncGo orc keys st log).1.remote id = some row ∧
        localVal st id ≤ row.count := by
  intro keys
  induction keys with
  | nil => intro st log id h; cases h
  | cons k rest ih =>
    intro st log id hmem
    simp only [syncGo]
    have hpost := syncOne_ok_post orc k st ho
    rw [if_pos hpost.1]
    rcases List.mem_cons.mp hmem with heq | hmem2
    · subst heq
      obtain ⟨row1, hr1, hle1⟩ := hpost.2
      obtain ⟨row2, hr2, hle2⟩ := syncGo_remote_mono orc rest (syncOne orc id st).1
        (log ++ (syncOne orc id st).2.1) id row1 hr1
      exact ⟨row2, hr2, le_trans hle1 hle2⟩
    · have hloc : localVal (syncOne orc k st).1 id = localVal st id := by
        unfold localVal
        rw [syncOne_counters]
      obtain ⟨row2, hr2, hle2⟩ := ih (syncOne orc k st).1 (log ++ (syncOne orc k st).2.1)
        id hmem2
      exact ⟨row2, hr2, by rw [hloc] at hle2; exact hle2⟩

/-- A fully successful sweep over keys that are already satisfied writes
nothing and changes nothing. -/
theorem syncGo_no_writes (orc : SyncOrc) (ho : okSyncOrc orc) :
    ∀ (keys : List String) (st : CtrState) (log : List WEvent),
      (∀ id, id ∈ keys →
        ∃ row, alGet st.remote id = some row ∧ localVal st id ≤ row.count) →
      syncGo orc keys st log = (st, log, true) := by
  intro keys
  induction keys with
  | nil => intro st log _; rfl
  | cons k rest ih =>
    intro st log hsat
    obtain ⟨row, hrow, hle⟩ := hsat k (List.mem_cons_self k rest)
    have hone := syncOne_satisfied_noop orc k st (ho k).1 row hrow hle
    simp only [syncGo, hone]
    rw [List.append_nil]
    exact ih st log (fun id hm => hsat id (List.mem_cons_of_mem k hm))

/-- C4: (idempotence) with all remote calls succeeding, a second
syncWithDatabase run immediately after a first one, with no intervening
local increments, issues no remote writes at all; and (monotonicity) no
syncWithDatabase run — whatever its remote outcomes — ever moves a stored
remote counter below its current value. -/
theorem sync_idempotent_and_monotone (st : CtrState) (orc1 orc2 : SyncOrc)
    (h1 : okSyncOrc orc1) (h2 : okSyncOrc orc2) :
    (syncWithDatabase (syncWithDatabase st orc1).1 orc2).2.1 = [] ∧
    (∀ (st3 : CtrState) (orc3 : SyncOrc) (id : String) (row : RemoteRow),
      alGet st3.remote id = some row →
      ∃ row2, alGet (syncWithDatabase st3 orc3).1.remote id = some row2 ∧
        row.count ≤ row2.count) := by
  constructor
  · unfold syncWithDatabase
    by_cases hfb : st.fallbackEnabled = true
    · rw [if_pos hfb]
      show ((if st.fallbackEnabled = true then _ else _ : CtrState × List WEvent × Bool)).2.1 = []
      rw [if_pos hfb]
    · rw [if_neg hfb]
      have hfb1 : (syncGo orc1 (syncKeys st) st []).1.fallbackEnabled = st.fallbackEnabled :=
        syncGo_fallback orc1 _ st []
      rw [if_neg (by rw [hfb1]; exact hfb)]
      have hkeys : syncKeys (syncGo orc1 (syncKeys st) st []).1 = syncKeys st := by
        unfold syncKeys
        rw [syncGo_counters]
      rw [hkeys]
      have hsat : ∀ id, id ∈ syncKeys st →
          ∃ row, alGet (syncGo orc1 (syncKeys st) st []).1.remote id = some row ∧
            localVal (syncGo orc1 (syncKeys st) st []).1 id ≤ row.count := by
        intro id hm
        obtain ⟨row, hr, hle⟩ := syncGo_ok_post orc1 h1 (syncKeys st) st [] id hm
        refine ⟨row, hr, ?_⟩
        have : localVal (syncGo orc1 (syncKeys st) st []).1 id = localVal st id := by
          unfold localVal
          rw [syncGo_counters]
        rw [this]
        exact hle
      rw [syncGo_no_writes orc2 h2 _ _ [] hsat]
  · intro st3 orc3 id row hr
    unfold syncWithDatabase
    by_cases hfb : st3.fallbackEnabled = true
    · rw [if_pos hfb]
      exact ⟨row, hr, le_refl _⟩
    · rw [if_neg hfb]
      exact syncGo_remote_mono orc3 _ st3 [] id row hr

/-- A concrete remote-backed state with one local counter, used by the C4
witness. -/
def sampleSyncState : CtrState :=
  { freshState with
      fallbackEnabled := false
      localCounters := [("x", 5)] }

/-- The same state with an existing remote row above the local mirror. -/
def sampleSyncStateR : CtrState :=
  { freshState with
      fallbackEnabled := false
      localCounters := [("x", 5)]
      remote := [("x", ⟨9, "x"⟩)] }

/-- A sync oracle in which every remote call succeeds. -/
def okSync : SyncOrc := ⟨fun _ => ReadRes.ok, fun _ => WriteRes.ok⟩

theorem sync_idempotent_and_monotone_witness :
    (syncWithDatabase (syncWithDatabase sampleSyncState okSync).1 okSync).2.1 = [] ∧
    (∃ row2, alGet (syncWithDatabase sampleSyncStateR okSync).1.remote "x" = some row2 ∧
      (9 : Nat) ≤ row2.count) :=
  ⟨(sync_idempotent_and_monotone sampleSyncState okSync okSync
      (fun _ => ⟨rfl, rfl⟩) (fun _ => ⟨rfl, rfl⟩)).1,
    (sync_idempotent_and_monotone sampleSyncState okSync okSync
      (fun _ => ⟨rfl, rfl⟩) (fun _ => ⟨rfl, rfl⟩)).2
      sampleSyncStateR okSync "x" ⟨9, "x"⟩ rfl⟩

/-! ### C1: getCounterValue is monotone along any run -/

theorem drainPending_effects (orcs : Nat → IncOrc) :
    ∀ (pend : List (String × IncOptions)) (i : Nat) (st : CtrState),
      (∀ i2, localVal st i2 ≤ localVal (drainPending orcs i pend st) i2) ∧
      (RemoteLeLocal st → RemoteLeLocal (drainPending orcs i pend st)) := by
  intro pend
  induction pend with
  | nil => exact fun i st => ⟨fun i2 => le_refl _, fun h => h⟩
  | cons p rest ih =>
    intro i st
    obtain ⟨id, opt⟩ := p
    rw [drainPending]
    constructor
    · intro i2
      exact le_trans ((inc_effects st id opt (orcs i)).1 i2)
        ((ih (i + 1) (incrementCounter st id opt (orcs i)).1).1 i2)
    · intro h
      exact (ih (i + 1) _).2 ((inc_effects st id opt (orcs i)).2 h)

theorem execOp_effects (st : CtrState) (op : Op) :
    (∀ i2, localVal st i2 ≤ localVal (execOp st op) i2) ∧
    (RemoteLeLocal st → RemoteLeLocal (execOp st op)) := by
  cases op with
  | opGet id r => exact ⟨fun i2 => le_refl _, fun h => h⟩
  | opInc id opt orc => exact inc_effects st id opt orc
  | opSync orc =>
    show (∀ i2, localVal st i2 ≤ localVal (syncWithDatabase st orc).1 i2) ∧
      (RemoteLeLocal st → RemoteLeLocal (syncWithDatabase st orc).1)
    unfold syncWithDatabase
    by_cases hfb : st.fallbackEnabled = true
    · rw [if_pos hfb]
      exact ⟨fun i2 => le_refl _, fun h => h⟩
    · rw [if_neg hfb]
      refine ⟨fun i2 => ?_, fun h => syncGo_inv orc _ st [] h⟩
      have : localVal (syncGo orc (syncKeys st) st []).1 i2 = localVal st i2 := by
        unfold localVal
        rw [syncGo_counters]
      rw [this]
  | opInit probe orcs =>
    show (∀ i2, localVal st i2 ≤ localVal (initSystem st probe orcs) i2) ∧ _
    cases probe with
    | thrown => exact ⟨fun i2 => le_refl _, fun h => h⟩
    | ok =>
      rw [initSystem_ok_eq]
      refine ⟨fun i2 => ?_, fun h => ?_⟩
      · exact (drainPending_effects orcs _ 0
          { st with fallbackEnabled := false, initialized := true }).1 i2
      · exact (drainPending_effects orcs _ 0
          { st with fallbackEnabled := false, initialized := true }).2 h
    | err =>
      rw [initSystem_err_eq]
      refine ⟨fun i2 => ?_, fun h => ?_⟩
      · exact (drainPending_effects orcs _ 0
          { st with fallbackEnabled := true, initialized := true }).1 i2
      · exact (drainPending_effects orcs _ 0
          { st with fallbackEnabled := true, initialized := true }).2 h

theorem foldl_inv (ops : List Op) :
    ∀ st : CtrState, RemoteLeLocal st → RemoteLeLocal (ops.foldl execOp st) := by
  induction ops with
  | nil => exact fun st h => h
  | cons op rest ih =>
    intro st h
    exact ih (execOp st op) ((execOp_effects st op).2 h)

theorem foldl_localVal_mono (ops : List Op) :
    ∀ (st : CtrState) (i2 : String), localVal st i2 ≤ localVal (ops.foldl execOp st) i2 := by
  induction ops with
  | nil => exact fun st i2 => le_refl _
  | cons op rest ih =>
    intro st i2
    exact le_trans ((execOp_effects st op).1 i2) (ih (execOp st op) i2)

theorem runOps_inv (ops : List Op) : RemoteLeLocal (runOps ops) := by
  apply foldl_inv
  intro id row hr
  cases hr

/-- Under the remote-at-most-local invariant, getCounterValue answers with
the local mirror in every mode and for every read outcome. -/
theorem getCounterValue_eq_localVal (st : CtrState) (h : RemoteLeLocal st) (r : ReadRes)
    (id : String) : getCounterValue st r id = localVal st id := by
  unfold getCounterValue
  by_cases hb : (!st.fallbackEnabled && st.initialized) = true
  · rw [if_pos hb]
    cases r with
    | ok =>
      cases hrow : alGet st.remote id with
      | some row => exact Nat.max_eq_right (h id row hrow)
      | none => rfl
    | err => rfl
    | thrown => rfl
  · rw [if_neg hb]

/-- C1: along any run of the system from its constructor state — any
interleaving of initialize, incrementCounter, syncWithDatabase and
getCounterValue, under any pattern of remote successes, errors and throws
(in particular runs where a remote read succeeds early and fails later) —
the value getCounterValue returns for a counter never drops below a value
it returned earlier for that counter. -/
theorem getCounterValue_monotone (ops extra : List Op) (id : String) (r1 r2 : ReadRes) :
    getCounterValue (runOps ops) r1 id ≤ getCounterValue (runOps (ops ++ extra)) r2 id := by
  rw [getCounterValue_eq_localVal _ (runOps_inv ops) r1 id,
    getCounterValue_eq_localVal _ (runOps_inv (ops ++ extra)) r2 id]
  unfold runOps
  rw [List.foldl_append]
  exact foldl_localVal_mono extra (ops.foldl execOp freshState) id

end Fresko
